import Mathlib

/- A shallow embedding of the anselusd server sources: the keycard entry
engine (AlgoString, EntryBase with its signing, hashing and expiration
methods) and the dbhandler module (password hashing, failure log, lockout,
address resolution, workspace status, keycard entry retrieval).

Modelling conventions:
  * a Go string is a list of characters (GoStr), a Go byte slice a list of
    naturals below 256;
  * a Go map[string]string is an association list with first-match lookup;
  * a database table is a list of row structures; each SQL statement in the
    source is translated to the corresponding filter, find, map or append on
    that list;
  * methods that mutate their receiver are translated to functions that
    return the updated value next to the Go return value;
  * cryptographic primitives (Ed25519 signing, the Argon2 key derivation
    function, the digest functions) are taken as function parameters, since
    the claims under study are independent of the concrete digests. -/

/-- GoStr models a Go string as a list of characters. -/
abbrev GoStr := List Char

/-- Conversion from a Lean string literal to the Go string model. -/
def gs (s : String) : GoStr := s.data

/-- Byte view of a Go string. The sources only apply this to ASCII data,
where UTF-8 encoding is the identity on code points. -/
def strBytes (s : GoStr) : List Nat := s.map (fun c => c.toNat)

/-- Go strings.Split for a one-character separator. -/
def splitOnChar (c : Char) : GoStr → List GoStr
  | [] => [[]]
  | x :: xs =>
    let r := splitOnChar c xs
    if x = c then [] :: r
    else (x :: r.headD []) :: r.tail

theorem splitOnChar_ne_nil (c : Char) (s : GoStr) : splitOnChar c s ≠ [] := by
  cases s with
  | nil => simp [splitOnChar]
  | cons x xs =>
    simp only [splitOnChar]
    split <;> simp

theorem splitOnChar_cons_self (c : Char) (s : GoStr) :
    splitOnChar c (c :: s) = [] :: splitOnChar c s := by
  simp [splitOnChar]

theorem splitOnChar_not_mem {c : Char} {a : GoStr} (h : c ∉ a) : splitOnChar c a = [a] := by
  induction a with
  | nil => rfl
  | cons x xs ih =>
    have hx : x ≠ c := fun he => h (he ▸ List.mem_cons_self x xs)
    have hxs : c ∉ xs := fun hm => h (List.mem_cons_of_mem x hm)
    simp [splitOnChar, ih hxs, hx]

theorem splitOnChar_append {c : Char} {a rest : GoStr} (h : c ∉ a) :
    splitOnChar c (a ++ c :: rest) = a :: splitOnChar c rest := by
  induction a with
  | nil => simp [splitOnChar_cons_self]
  | cons x xs ih =>
    have hx : x ≠ c := fun he => h (he ▸ List.mem_cons_self x xs)
    have hxs : c ∉ xs := fun hm => h (List.mem_cons_of_mem x hm)
    simp [splitOnChar, ih hxs, hx]

/-- Go strings.SplitN for a one-character separator: with n greater than
zero at most n substrings are produced and the final one is the unsplit
remainder; n equal to zero yields an empty slice; negative n splits fully. -/
def goSplitN (s : GoStr) (sep : Char) (n : Int) : List GoStr :=
  if n = 0 then []
  else if n < 0 then splitOnChar sep s
  else
    let parts := splitOnChar sep s
    if parts.length ≤ n.toNat then parts
    else parts.take (n.toNat - 1) ++ [List.intercalate [sep] (parts.drop (n.toNat - 1))]

/-- Result length of the SplitN call with limit 1 used by the source: it is
always a single element, because either no separator occurs or everything
is returned unsplit. -/
theorem goSplitN_one_length (s : GoStr) (sep : Char) : (goSplitN s sep 1).length = 1 := by
  unfold goSplitN
  simp only [if_neg (by decide : ¬ (1 : Int) = 0), if_neg (by decide : ¬ (1 : Int) < 0)]
  split
  · rename_i hle
    have h1 : 1 ≤ (splitOnChar sep s).length :=
      Nat.one_le_iff_ne_zero.mpr (by
        simpa [List.length_eq_zero] using splitOnChar_ne_nil sep s)
    omega
  · simp

/-- Lookup in a Go map[string]string; a missing key yields the zero value. -/
def mapGet (m : List (GoStr × GoStr)) (k : GoStr) : GoStr := (m.lookup k).getD []

/-- Assignment into a Go map[string]string. -/
def mapSet (m : List (GoStr × GoStr)) (k v : GoStr) : List (GoStr × GoStr) :=
  if m.any (fun p => p.1 == k) then m.map (fun p => if p.1 == k then (k, v) else p)
  else m ++ [(k, v)]

/-- AlgoString from keycard.go: an algorithm prefix and base85 payload.
The Go fields are named Prefix and Data; the first is renamed Pfx here. -/
structure AlgoString where
  Pfx : GoStr
  Data : GoStr
deriving Repr, DecidableEq

/-- AlgoString.Set from keycard.go. The source splits on the colon with
strings.SplitN(data, ":", 1) and demands exactly two parts. The method has
a value receiver in Go; the model returns the written-to value alongside
the error result. -/
def AlgoString.Set (as : AlgoString) (data : GoStr) : AlgoString × Option GoStr :=
  if data.length < 1 then ({ Pfx := [], Data := [] }, none)
  else
    let parts := goSplitN data ':' 1
    if parts.length ≠ 2 then (as, some ( gs "bad string format"))
    else ({ Pfx := parts.getD 0 [], Data := parts.getD 1 [] }, none)

/-- AlgoString.AsString from keycard.go. -/
def AlgoString.AsString (as : AlgoString) : GoStr := as.Pfx ++ ':' :: as.Data

/-- AlgoString.IsValid from keycard.go: both halves non-empty. -/
def AlgoString.IsValid (as : AlgoString) : Bool := as.Pfx.length > 0 && as.Data.length > 0

/-- C3: the claim says Set succeeds on every PREFIX:DATA input and fails
with a bad-format error exactly when the colon is missing. In the source,
strings.SplitN(data, ":", 1) always returns a single element (limit 1 means
at most one substring), so the two-part check fails and Set reports the
bad-format error on every non-empty input, colon or not, and never stores
the halves. This theorem evaluates the code on all non-empty inputs. -/
theorem algoString_set_always_bad_format (as : AlgoString) (s : GoStr) (h : s ≠ []) :
    AlgoString.Set as s = (as, some ( gs "bad string format")) := by
  unfold AlgoString.Set
  have hlen : ¬ s.length < 1 := by
    cases s with
    | nil => exact absurd rfl h
    | cons a l => simp
  rw [if_neg hlen]
  have h2 : (goSplitN s ':' 1).length ≠ 2 := by
    rw [goSplitN_one_length]
    decide
  simp [h2]

/-- C3 witness: the well-formed ATB input ED25519:abc123 is rejected. -/
theorem algoString_set_always_bad_format_witness :
    ( gs "ED25519:abc123") ≠ [] ∧
      AlgoString.Set ⟨ [], [] ⟩ ( gs "ED25519:abc123") =
        (⟨ [], [] ⟩, some ( gs "bad string format")) :=
  ⟨ by decide, algoString_set_always_bad_format ⟨ [], [] ⟩ ( gs "ED25519:abc123") (by decide)⟩

/- dbhandler.go: validation helpers. -/

/-- Character class [\da-fA-F] from the UUID pattern. -/
def isHexDig (c : Char) : Bool := c.isDigit || ('a' ≤ c && c ≤ 'f') || ('A' ≤ c && c ≤ 'F')

/-- Consume exactly n hexadecimal characters, returning the remainder. -/
def takeHex : Nat → GoStr → Option GoStr
  | 0, s => some s
  | _ + 1, [] => none
  | n + 1, c :: s => if isHexDig c then takeHex n s else none

/-- Consume an optional dash. Since the atom after every dash in the UUID
pattern is a hex class and a dash is not hexadecimal, the greedy choice is
the only one that can succeed, so the regexp backtracking collapses to
this deterministic step. -/
def optDash : GoStr → GoStr
  | '-' :: s => s
  | s => s

/-- Matching of the pattern 8hex -? 4hex -? 4hex -? 4hex -? 12hex anchored
at the start of the string. -/
def uuidMatchAt (s : GoStr) : Bool :=
  (do
    let s1 ← takeHex 8 s
    let s2 ← takeHex 4 (optDash s1)
    let s3 ← takeHex 4 (optDash s2)
    let s4 ← takeHex 4 (optDash s3)
    let _ ← takeHex 12 (optDash s4)
    pure ()).isSome

/-- Go regexp MatchString is unanchored: try every start position. -/
def uuidMatchAnywhere : GoStr → Bool
  | [] => false
  | c :: rest => uuidMatchAt (c :: rest) || uuidMatchAnywhere rest

/-- ValidateUUID from dbhandler.go: length 36 or 32, and the hex-with-
optional-dashes pattern matches somewhere in the string. -/
def ValidateUUID (uuid : GoStr) : Bool :=
  if uuid.length ≠ 36 && uuid.length ≠ 32 then false
  else uuidMatchAnywhere uuid

/-- Character class [a-zA-Z0-9] of the domain pattern. -/
def isAlnumAscii (c : Char) : Bool :=
  ('a' ≤ c && c ≤ 'z') || ('A' ≤ c && c ≤ 'Z') || c.isDigit

/-- Unanchored match of the domain pattern ([a-zA-Z0-9]+\.)+[a-zA-Z0-9]+.
An unanchored match of that pattern exists exactly when some alnum, dot,
alnum window occurs, since one-character repetitions suffice. -/
def domainPatMatch : GoStr → Bool
  | a :: b :: c :: rest =>
    (isAlnumAscii a && b == '.' && isAlnumAscii c) || domainPatMatch (b :: c :: rest)
  | _ => false

/-- Go unicode.IsSpace over the class [[:space:]] of the user-id pattern,
restricted to its ASCII members. -/
def goIsSpace (c : Char) : Bool :=
  c == ' ' || c == '\t' || c == '\n' || c == '\x0b' || c == '\x0c' || c == '\r'

/-- Match of the user-id rejection pattern [\"]|[[:space:]]: the string
contains a double quote or whitespace. -/
def useridBadMatch (s : GoStr) : Bool := s.any (fun c => c == '"' || goIsSpace c)

/-- Decimal value of a digit string. -/
def decVal (s : GoStr) : Nat := s.foldl (fun a c => a * 10 + (c.toNat - 48)) 0

/-- One dotted-quad component for the net.ParseIP model. -/
def ipv4PartOk (s : GoStr) : Bool :=
  decide (s ≠ []) && s.length ≤ 3 && s.all Char.isDigit && decVal s ≤ 255

/-- Model of net.ParseIP succeeding. Only the IPv4 dotted-quad form is
modelled; IPv6 literals are elided since every source value exercised by
the claims is either an IPv4 literal or a UUID. -/
def goParseIPOk (s : GoStr) : Bool :=
  let parts := splitOnChar '.' s
  parts.length == 4 && parts.all ipv4PartOk

/- dbhandler.go: the failure_log table. -/

/-- Row of the failure_log table. The spec data model names the columns
type, id, source, count, last_failure and lockout_until; the timestamps
are kept as their serialized strings as the Go code scans them. -/
structure FailureRow where
  ftype : GoStr
  id : GoStr
  source : GoStr
  count : Int
  lastFailure : GoStr
  lockoutUntil : GoStr
deriving Repr, DecidableEq

/-- Security settings read from the viper configuration. -/
structure SecurityConfig where
  maxFailures : Int
  lockoutDelayMin : Int
deriving Repr

/-- LogFailure from dbhandler.go. The SELECT reads the count keyed on type
and source; its Scan error is then tested with err not-nil taken as the
existing-row case, which is the branch structure of the source (the spec
records this inversion as a quirk). The statements name the id column wid;
the schema DDL is outside the sources, and the spec data model names that
column id, so both spellings are bound to the id field here. The computed
lockout is time.Now followed by lockout.Add(delay) whose return value is
discarded, so the stored stamp equals the current time. The current time
is passed in, already serialized, as nowStr. -/
def LogFailure (cfg : SecurityConfig) (nowStr : GoStr) (failType id source : GoStr)
    (db : List FailureRow) : List FailureRow × Option GoStr :=
  if ¬ (failType == gs "workspace" || failType == gs "password" || failType == gs "recipient") then
    (db, some ( gs "LogFailure: bad failure type"))
  else if source.length = 0 then
    (db, some ( gs "LogFailure: source may not be empty"))
  else if ¬ (goParseIPOk source || ValidateUUID source) then
    (db, some ( gs "LogFailure: bad source"))
  else
    match (db.find? (fun r => r.ftype == failType && r.source == source)).map (fun r => r.count) with
    | none =>
      let failCount : Int := 0 + 1
      if failCount ≥ cfg.maxFailures then
        (db.map (fun r =>
          if r.ftype == failType && r.source == source && r.id == id then
            { r with count := failCount, lastFailure := nowStr, lockoutUntil := nowStr }
          else r), none)
      else
        (db.map (fun r =>
          if r.ftype == failType && r.source == source && r.id == id then
            { r with count := failCount, lastFailure := nowStr }
          else r), none)
    | some c =>
      (db ++ [⟨ failType, id, source, c, nowStr, []⟩], none)

/-- Sample existing failure row used for the C2 evaluation. -/
def failRowC2 : FailureRow :=
  ⟨ gs "password", gs "w1", gs "33333333-3333-3333-3333-333333333333", 1, gs "t1", []⟩

/-- C2: the claim says every LogFailure call increments the stored counter,
inserting a count-1 row when none exists. In the source the Scan error test
is inverted: with no stored row the code runs the increment UPDATE, which
matches nothing, so no row is inserted and the call still succeeds; with a
stored row the code runs the INSERT instead, appending a duplicate carrying
the unincremented count. Both behaviors are evaluated here at max_failures
three and lockout_delay_min fifteen. -/
theorem logFailure_miss_and_hit_behavior :
    LogFailure ⟨3, 15⟩ ( gs "t2") ( gs "password") ( gs "w1")
        ( gs "33333333-3333-3333-3333-333333333333") [] = ([], none) ∧
      LogFailure ⟨3, 15⟩ ( gs "t2") ( gs "password") ( gs "w1")
        ( gs "33333333-3333-3333-3333-333333333333") [failRowC2] =
        ([failRowC2,
          ⟨ gs "password", gs "w1", gs "33333333-3333-3333-3333-333333333333", 1, gs "t2", []⟩],
          none) :=
  ⟨ by decide, by decide⟩

/- dbhandler.go: workspaces, aliases, address resolution. -/

/-- Row of the workspaces table. -/
structure WorkspaceRow where
  wid : GoStr
  uid : GoStr
  domain : GoStr
  password : GoStr
  status : GoStr
  wtype : GoStr
deriving Repr, DecidableEq

/-- Row of the aliases table. The DDL is outside the sources; per the spec
data model the table is keyed by the wid of the alias workspace, and the
alias column carries the target (consistent with IsAlias in the source,
which probes SELECT alias FROM aliases WHERE wid equals the workspace under
test). The Go column alias is rendered as the field aliasTarget, since
alias is reserved in Lean. -/
structure AliasRow where
  wid : GoStr
  aliasTarget : GoStr
deriving Repr, DecidableEq

/-- ResolveAddress from dbhandler.go. The source splits the address on the
slash, validates the domain and user-id patterns, and then: for a UUID
local part reads wtype keyed by wid, follows the aliases table when wtype
is alias (its SELECT reads back the wid column it filtered on), and
otherwise returns addr itself; for a user-id local part it reads wid keyed
by uid. -/
def ResolveAddress (ws : List WorkspaceRow) (aliases : List AliasRow) (addr : GoStr) :
    Except GoStr GoStr :=
  let parts := splitOnChar '/' addr
  if parts.length ≠ 2 then .error ( gs "invalid address")
  else
    let p0 := parts.getD 0 []
    let p1 := parts.getD 1 []
    if ¬ domainPatMatch p1 then .error ( gs "invalid domain")
    else
      let isWid := ValidateUUID p0
      if useridBadMatch p0 then .error ( gs "invalid user id")
      else if isWid then
        match ws.find? (fun r => r.wid == p0) with
        | none => .error ( gs "workspace not found")
        | some r =>
          if r.wtype == gs "alias" then
            match aliases.find? (fun a => a.wid == p0) with
            | none => .error ( gs "sql: no rows in result set")
            | some a => .ok a.wid
          else .ok addr
      else
        match ws.find? (fun r => r.uid == p0) with
        | none => .error ( gs "workspace not found")
        | some r => .ok r.wid

/-- Workspace ID constants for the C4 evaluation. -/
def widA : GoStr := gs "11111111-1111-1111-1111-111111111111"

/-- Alias target workspace ID for the C4 evaluation. -/
def widB : GoStr := gs "22222222-2222-2222-2222-222222222222"

/-- Individual workspace table for the C4 evaluation. -/
def wsIndivC4 : List WorkspaceRow :=
  [⟨ widA, gs "alice", gs "example.com", gs "-", gs "active", gs "individual"⟩]

/-- Alias workspace table for the C4 evaluation. -/
def wsAliasC4 : List WorkspaceRow :=
  [⟨ widA, [], gs "example.com", gs "-", gs "active", gs "alias"⟩]

/-- Alias table for the C4 evaluation: widA is an alias of widB. -/
def aliasesC4 : List AliasRow := [⟨ widA, widB⟩]

/-- C4: the claim says that for a uuid-slash-domain address whose workspace
row exists, ResolveAddress returns the alias target after one hop when the
row is an alias and otherwise the canonical WID; a missing row yields a
not-found error. In the source the non-alias branch returns the whole
address string addr, not the WID, and the alias branch selects the wid
column of the aliases row it just filtered by wid, so it hands back the
alias its own wid instead of the target. Only the missing-row clause of
the claim holds. All three behaviors are evaluated here. -/
theorem resolveAddress_returns_address_not_wid :
    ResolveAddress wsIndivC4 [] (widA ++ '/' :: gs "example.com") =
        .ok (widA ++ '/' :: gs "example.com") ∧
      (widA ++ '/' :: gs "example.com") ≠ widA ∧
      ResolveAddress wsAliasC4 aliasesC4 (widA ++ '/' :: gs "example.com") = .ok widA ∧
      widA ≠ widB ∧
      ResolveAddress [] [] (widA ++ '/' :: gs "example.com") =
        .error ( gs "workspace not found") :=
  ⟨ rfl, by decide, rfl, by decide, rfl⟩

/- dbhandler.go: CheckLockout. -/

/-- Column names of the failure_log table. Modelled from the spec: the
schema DDL is not among the sources; the spec data model and the persisted
schema table list the columns type, id, source, count, last_failure and
lockout_until. -/
def failureLogColumns : List GoStr :=
  [ gs "type", gs "id", gs "source", gs "count", gs "last_failure", gs "lockout_until"]

/-- String-column projection of a failure row by column name. -/
def failRowGet (r : FailureRow) (col : GoStr) : Option GoStr :=
  if col = gs "type" then some r.ftype
  else if col = gs "id" then some r.id
  else if col = gs "source" then some r.source
  else if col = gs "last_failure" then some r.lastFailure
  else if col = gs "lockout_until" then some r.lockoutUntil
  else none

/-- Execution of a DELETE on failure_log with equality conditions given as
column-name and value pairs. Referencing a column that is not in the table
schema is a SQL error, reported as none. -/
def failureLogDeleteWhere (conds : List (GoStr × GoStr)) (db : List FailureRow) :
    Option (List FailureRow) :=
  if conds.all (fun c => failureLogColumns.contains c.1) then
    some (db.filter (fun r => ¬ conds.all (fun c => failRowGet r c.1 == some c.2)))
  else none

/-- CheckLockout from dbhandler.go. The SELECT is keyed on id and source;
an empty stored stamp is returned as-is; a parse failure is an error; an
expired stamp triggers a DELETE whose WHERE clause names the column
failtype, which the failure_log schema does not have. Timestamp parsing
and the current instant enter as parameters. -/
def CheckLockout (parseTime : GoStr → Option Int) (now : Int)
    (failType id source : GoStr) (db : List FailureRow) :
    List FailureRow × GoStr × Option GoStr :=
  match db.find? (fun r => r.id == id && r.source == source) with
  | none => (db, [], none)
  | some r =>
    let locktime := r.lockoutUntil
    if locktime.length < 1 then (db, locktime, none)
    else
      match parseTime locktime with
      | none => (db, [], some ( gs "bad timestamp in database"))
      | some stamp =>
        if stamp < now then
          match failureLogDeleteWhere
              [( gs "failtype", failType), ( gs "source", source),
               ( gs "lockout_until", locktime)] db with
          | none => (db, [], some ( gs "sql error: column failtype does not exist"))
          | some db2 => (db2, [], none)
        else (db, locktime, none)

/-- Failure row with a stored lockout stamp for the C5 evaluation. -/
def failRowC5 : FailureRow :=
  ⟨ gs "password", gs "id1", gs "src1", 3, gs "t0", gs "2020-01-01T00:00:00Z"⟩

/-- C5: the claim says an expired stamp makes CheckLockout delete the
record and return empty with no error. In the source the DELETE names the
nonexistent column failtype, so against the spec schema the statement
fails: the record stays and the error is returned with an empty stamp.
The unexpired-stamp and missing-record clauses of the claim do hold, and
are evaluated in the second and third conjuncts. -/
theorem checkLockout_expired_delete_errors :
    CheckLockout (fun _ => some 0) 1 ( gs "password") ( gs "id1") ( gs "src1") [failRowC5] =
        ([failRowC5], [], some ( gs "sql error: column failtype does not exist")) ∧
      CheckLockout (fun _ => some 5) 1 ( gs "password") ( gs "id1") ( gs "src1") [failRowC5] =
        ([failRowC5], gs "2020-01-01T00:00:00Z", none) ∧
      CheckLockout (fun _ => some 0) 1 ( gs "password") ( gs "id1") ( gs "src1") [] =
        ([], [], none) :=
  ⟨ by decide, by decide, by decide⟩

/- dbhandler.go: SetWorkspaceStatus. -/

/-- Go strings.ToLower restricted to ASCII case mapping. -/
def goToLower (s : GoStr) : GoStr := s.map Char.toLower

/-- SetWorkspaceStatus from dbhandler.go: rejects awaiting explicitly,
accepts only active, disabled and approved after lowercasing, demands a
valid UUID, and then updates the status of the matching workspace rows
with the status string as given. -/
def SetWorkspaceStatus (ws : List WorkspaceRow) (wid status : GoStr) :
    List WorkspaceRow × Option GoStr :=
  let realStatus := goToLower status
  if realStatus = gs "awaiting" then
    (ws, some ( gs "awaiting is an internal-only workspace status"))
  else if realStatus ≠ gs "active" ∧ realStatus ≠ gs "disabled" ∧ realStatus ≠ gs "approved" then
    (ws, some ( gs "not a valid status"))
  else if ¬ ValidateUUID wid then
    (ws, some ( gs "not a valid workspace ID"))
  else
    (ws.map (fun r => if r.wid == wid then { r with status := status } else r), none)

/-- C10: SetWorkspaceStatus returns an error and leaves the table untouched
unless the lowercased status is active, disabled or approved and the wid is
a valid UUID; the awaiting status in particular is always rejected with the
internal-only error, so it can never be set through this operation. -/
theorem setWorkspaceStatus_validation (ws : List WorkspaceRow) (wid status : GoStr) :
    ((goToLower status = gs "active" ∨ goToLower status = gs "disabled" ∨
        goToLower status = gs "approved") → ValidateUUID wid = true →
      (SetWorkspaceStatus ws wid status).2 = none) ∧
    (¬ ((goToLower status = gs "active" ∨ goToLower status = gs "disabled" ∨
          goToLower status = gs "approved") ∧ ValidateUUID wid = true) →
      ∃ msg, SetWorkspaceStatus ws wid status = (ws, some msg)) ∧
    (goToLower status = gs "awaiting" →
      SetWorkspaceStatus ws wid status =
        (ws, some ( gs "awaiting is an internal-only workspace status"))) := by
  refine ⟨?_, ?_, ?_⟩
  · intro hok huuid
    have hne : goToLower status ≠ gs "awaiting" := by
      rcases hok with h | h | h <;> rw [h] <;> decide
    have hval : ¬ (goToLower status ≠ gs "active" ∧ goToLower status ≠ gs "disabled" ∧
        goToLower status ≠ gs "approved") := by
      rcases hok with h | h | h <;> simp [h]
    simp [SetWorkspaceStatus, hne, hval, huuid]
  · intro hbad
    by_cases haw : goToLower status = gs "awaiting"
    · exact ⟨ gs "awaiting is an internal-only workspace status", by simp [SetWorkspaceStatus, haw]⟩
    · by_cases hval : goToLower status ≠ gs "active" ∧ goToLower status ≠ gs "disabled" ∧
          goToLower status ≠ gs "approved"
      · exact ⟨ gs "not a valid status", by simp [SetWorkspaceStatus, haw, hval]⟩
      · have hok : goToLower status = gs "active" ∨ goToLower status = gs "disabled" ∨
            goToLower status = gs "approved" := by tauto
        have huuid : ¬ ValidateUUID wid = true := fun hu => hbad ⟨hok, hu⟩
        exact ⟨ gs "not a valid workspace ID", by simp [SetWorkspaceStatus, haw, hval, huuid]⟩
  · intro haw
    simp [SetWorkspaceStatus, haw]

/-- C10 witness: a valid status on a valid UUID produces no error, and the
awaiting status is rejected on the same workspace table. -/
theorem setWorkspaceStatus_validation_witness :
    (SetWorkspaceStatus wsIndivC4 widA ( gs "Disabled")).2 = none ∧
      SetWorkspaceStatus wsIndivC4 widA ( gs "awaiting") =
        (wsIndivC4, some ( gs "awaiting is an internal-only workspace status")) :=
  ⟨ (setWorkspaceStatus_validation wsIndivC4 widA ( gs "Disabled")).1
      (Or.inr (Or.inl (by decide))) (by decide),
    (setWorkspaceStatus_validation wsIndivC4 widA ( gs "awaiting")).2.2 (by decide)⟩

/- keycard.go: base85 codec (RFC 1924 alphabet) used for signatures and
hashes. Only encoding of fully produced byte slices and decoding of
well-formed payloads are exercised by the claims; partial trailing chunks
follow the usual n-plus-one convention. -/

/-- RFC 1924 base85 alphabet. -/
def b85Alphabet : GoStr :=
  ( "0123456789ABCDEFGHIJKLMNOPQRSTUVWXYZabcdefghijklmnopqrstuvwxyz!#$%&()*+-;<=>?@^_`\x7b|\x7d~").data

/-- Digit of the base85 alphabet. -/
def b85c (n : Nat) : Char := b85Alphabet.getD n '0'

/-- Value of a base85 character; an out-of-alphabet character is an error. -/
def b85v (c : Char) : Option Nat :=
  let i := b85Alphabet.findIdx (fun x => x == c)
  if i < 85 then some i else none

/-- Five base85 digits of one 32-bit group. -/
def b85EncChunk (b0 b1 b2 b3 : Nat) : GoStr :=
  let v := ((b0 * 256 + b1) * 256 + b2) * 256 + b3
  [b85c (v / 52200625 % 85), b85c (v / 614125 % 85), b85c (v / 7225 % 85),
   b85c (v / 85 % 85), b85c (v % 85)]

/-- Base85 encoding: four-byte groups become five digits; a trailing group
of n bytes is zero-padded and keeps n plus one digits. -/
def b85Encode : List Nat → GoStr
  | [] => []
  | b0 :: b1 :: b2 :: b3 :: rest => b85EncChunk b0 b1 b2 b3 ++ b85Encode rest
  | [b0] => (b85EncChunk b0 0 0 0).take 2
  | [b0, b1] => (b85EncChunk b0 b1 0 0).take 3
  | [b0, b1, b2] => (b85EncChunk b0 b1 b2 0).take 4

/-- Four bytes of one decoded base85 group. -/
def b85DecChunk (v0 v1 v2 v3 v4 : Nat) : List Nat :=
  let v := (((v0 * 85 + v1) * 85 + v2) * 85 + v3) * 85 + v4
  [v / 16777216 % 256, v / 65536 % 256, v / 256 % 256, v % 256]

/-- Base85 decoding; a trailing group of m digits is padded with the top
alphabet digit and yields m minus one bytes; a single trailing digit or an
out-of-alphabet character is an error. -/
def b85Decode : GoStr → Option (List Nat)
  | [] => some []
  | c0 :: c1 :: c2 :: c3 :: c4 :: rest => do
    let v0 ← b85v c0
    let v1 ← b85v c1
    let v2 ← b85v c2
    let v3 ← b85v c3
    let v4 ← b85v c4
    let tail ← b85Decode rest
    pure (b85DecChunk v0 v1 v2 v3 v4 ++ tail)
  | [_] => none
  | [c0, c1] => do
    let v0 ← b85v c0
    let v1 ← b85v c1
    pure ((b85DecChunk v0 v1 84 84 84).take 1)
  | [c0, c1, c2] => do
    let v0 ← b85v c0
    let v1 ← b85v c1
    let v2 ← b85v c2
    pure ((b85DecChunk v0 v1 v2 84 84).take 2)
  | [c0, c1, c2, c3] => do
    let v0 ← b85v c0
    let v1 ← b85v c1
    let v2 ← b85v c2
    let v3 ← b85v c3
    pure ((b85DecChunk v0 v1 v2 v3 84).take 3)

/- keycard.go: signature descriptors and the entry base. -/

/-- SigInfo from keycard.go. The Go field Type is rendered itemType. -/
structure SigInfo where
  Name : GoStr
  Level : Int
  Optional : Bool
  itemType : Nat
deriving Repr, DecidableEq

/-- SigInfoHash constant from keycard.go. -/
def SigInfoHash : Nat := 1

/-- SigInfoSignature constant from keycard.go. -/
def SigInfoSignature : Nat := 2

/-- EntryBase from keycard.go. The Go field Type is rendered typeName. -/
structure EntryBase where
  typeName : GoStr
  Fields : List (GoStr × GoStr)
  FieldNames : List GoStr
  RequiredFields : List GoStr
  Signatures : List (GoStr × GoStr)
  SignatureInfo : List SigInfo
  PrevHash : GoStr
  Hash : GoStr
deriving Repr, DecidableEq

/-- EntryBase.MakeByteString from keycard.go: the type line, the non-empty
fields in field-name order, then for each signature descriptor below the
requested level either the Previous-Hash and Hash lines (for the hash slot)
or the stored non-empty signature line; all CRLF-joined with no trailing
CRLF. A level that is negative or beyond the descriptor list is replaced by
the level of the last descriptor. -/
def EntryBase.MakeByteString (eb : EntryBase) (siglevel : Int) : GoStr :=
  let typeLines := if eb.typeName.length > 0 then [eb.typeName] else []
  let fieldLines := eb.FieldNames.foldr (fun fn acc =>
    if (mapGet eb.Fields fn).length > 0 then (fn ++ ':' :: mapGet eb.Fields fn) :: acc
    else acc) []
  let slvl : Int :=
    if siglevel < 0 ∨ siglevel > (eb.SignatureInfo.length : Int) then
      ((eb.SignatureInfo.getLast?).map (fun i => i.Level)).getD 0
    else siglevel
  let sigLines := (eb.SignatureInfo.take slvl.toNat).foldr (fun item acc =>
    (if item.itemType = SigInfoHash then
      (if eb.PrevHash.length > 0 then [ gs "Previous-Hash:" ++ eb.PrevHash] else []) ++
      (if eb.Hash.length > 0 then [ gs "Hash:" ++ eb.Hash] else [])
    else
      if (mapGet eb.Signatures item.Name).length > 0 then
        [item.Name ++ gs "-Signature:" ++ mapGet eb.Signatures item.Name]
      else []) ++ acc) []
  List.intercalate ( gs "\r\n") (typeLines ++ fieldLines ++ sigLines)

/-- EntryBase.Sign from keycard.go. The scan over the signature descriptor
list records whether and where the requested type occurs and, from the
first occurrence onward, writes the empty string into the Signatures map
under each descriptor name (for the hash slot this writes the unused key
Hashes, while the PrevHash and Hash fields of the entry are not touched).
The nacl sign.Sign primitive, which returns the signature followed by the
message, enters as the ed25519 parameter; its result is stored under the
requested type as ED25519 with the base85 payload. -/
def EntryBase.Sign (ed25519 : List Nat → List Nat → List Nat) (eb : EntryBase)
    (signingKey : AlgoString) (sigtype : GoStr) : EntryBase × Option GoStr :=
  if ¬ signingKey.IsValid then (eb, some ( gs "bad signing key"))
  else if signingKey.Pfx ≠ gs "ED25519" then (eb, some ( gs "unsupported signing algorithm"))
  else
    let scan := eb.SignatureInfo.enum.foldl
      (fun (acc : Bool × Int × List (GoStr × GoStr)) p =>
        let ok := acc.1 || p.2.Name == sigtype
        let idx := if p.2.Name == sigtype then (p.1 : Int) else acc.2.1
        let sigs := if ok then mapSet acc.2.2 p.2.Name [] else acc.2.2
        (ok, idx, sigs))
      (false, -1, eb.Signatures)
    if ¬ scan.1 then (eb, some ( gs "bad signature type"))
    else
      match b85Decode signingKey.Data with
      | none => (eb, some ( gs "base85 decode error"))
      | some decoded =>
        let signkeyArray := (decoded ++ List.replicate 64 0).take 64
        let cleared := { eb with Signatures := scan.2.2 }
        let signature := ed25519 (strBytes (cleared.MakeByteString (scan.2.1 + 1))) signkeyArray
        ({ cleared with
            Signatures := mapSet scan.2.2 sigtype ( gs "ED25519:" ++ b85Encode signature) },
          none)

/-- EntryBase.GenerateHash from keycard.go. The validation switch accepts
BLAKE3-256, BLAKE2, SHA-256 and SHA3-256; the computation switch cases are
BLAKE3-256, BLAKE2, SHA256 and SHA3-256, so the accepted name SHA-256
falls through every case and the function returns nil without writing the
hash. In every taken case the written value is the algorithm name directly
concatenated with the base85 digest, with no colon. In the BLAKE3 branch
the source calls hasher.Sum on a fresh hasher with nothing written, which
appends the digest of the empty stream to the message bytes; that digest
enters as the blake3EmptyDigest parameter, the other digest functions as
function parameters. -/
def EntryBase.GenerateHash (blake2b256 sha256fn sha3x256 : List Nat → List Nat)
    (blake3EmptyDigest : List Nat) (eb : EntryBase) (algorithm : GoStr) :
    EntryBase × Option GoStr :=
  let validAlgorithm := algorithm == gs "BLAKE3-256" || algorithm == gs "BLAKE2" ||
    algorithm == gs "SHA-256" || algorithm == gs "SHA3-256"
  if ¬ validAlgorithm then (eb, some ( gs "unsupported hashing algorithm"))
  else
    let hashLevel : Int :=
      ((eb.SignatureInfo.find? (fun i => i.itemType == SigInfoHash)).map
        (fun i => i.Level)).getD (-1)
    if algorithm == gs "BLAKE3-256" then
      ({ eb with Hash := algorithm ++
          b85Encode (strBytes (eb.MakeByteString hashLevel) ++ blake3EmptyDigest) }, none)
    else if algorithm == gs "BLAKE2" then
      ({ eb with Hash := algorithm ++
          b85Encode (blake2b256 (strBytes (eb.MakeByteString hashLevel))) }, none)
    else if algorithm == gs "SHA256" then
      ({ eb with Hash := algorithm ++
          b85Encode (sha256fn (strBytes (eb.MakeByteString hashLevel))) }, none)
    else if algorithm == gs "SHA3-256" then
      ({ eb with Hash := algorithm ++
          b85Encode (sha3x256 (strBytes (eb.MakeByteString hashLevel))) }, none)
    else (eb, none)

/- keycard.go: SetExpiration and the Go time layout machinery it uses. -/

/-- Calendar date for the time model. -/
structure GoDate where
  year : Int
  month : Int
  day : Int
deriving Repr, DecidableEq

/-- Decimal digits of a natural number. -/
def natToDec (n : Nat) : GoStr := (Nat.repr n).data

/-- Zero-padded decimal of width w. -/
def padNum (w : Nat) (v : Int) : GoStr :=
  let ds := natToDec v.toNat
  List.replicate (w - ds.length) '0' ++ ds

/-- Go time.Format over the date tokens of the reference layout: 2006 is
the year, 01 the month, 02 the day; every other character is copied
literally. The clock tokens are omitted since no layout in the source
contains them. In particular a layout with no tokens, such as the C-style
string the source passes, is returned verbatim. -/
def goTimeFormat (t : GoDate) : GoStr → GoStr
  | '2' :: '0' :: '0' :: '6' :: rest => padNum 4 t.year ++ goTimeFormat t rest
  | '0' :: '1' :: rest => padNum 2 t.month ++ goTimeFormat t rest
  | '0' :: '2' :: rest => padNum 2 t.day ++ goTimeFormat t rest
  | c :: rest => c :: goTimeFormat t rest
  | [] => []

/-- EntryBase.SetExpiration from keycard.go: a negative day count becomes
365 for organization entries and 90 for user entries (error otherwise),
day counts above 1095 are clamped, and the Expiration field receives
time.Now().AddDate(0, 0, numdays) formatted with the layout string
percent-Y percent-m percent-d. Calendar arithmetic enters through the
addDate and now parameters. -/
def EntryBase.SetExpiration (addDate : GoDate → Int → Int → Int → GoDate) (now : GoDate)
    (eb : EntryBase) (numdays : Int) : EntryBase × Option GoStr :=
  let nd0 : Option Int :=
    if numdays < 0 then
      if eb.typeName = gs "Organization" then some 365
      else if eb.typeName = gs "User" then some 90
      else none
    else some numdays
  match nd0 with
  | none => (eb, some ( gs "unsupported keycard type"))
  | some nd1 =>
    let nd := if nd1 > 1095 then 1095 else nd1
    let v := goTimeFormat (addDate now 0 0 nd) ( gs "%Y%m%d")
    ({ eb with Fields := mapSet eb.Fields ( gs "Expiration") v }, none)

/-- Signature descriptor list of organization entries, from NewOrgEntry:
Custody at level one (optional), Organization at level two, the hash slot
at level three. -/
def orgSignatureInfo : List SigInfo :=
  [⟨ gs "Custody", 1, true, SigInfoSignature⟩,
   ⟨ gs "Organization", 2, false, SigInfoSignature⟩,
   ⟨ gs "Hashes", 3, false, SigInfoHash⟩]

/-- Field-name order of organization entries, from NewOrgEntry. -/
def orgFieldNames : List GoStr :=
  [ gs "Index", gs "Name", gs "Contact-Admin", gs "Contact-Abuse", gs "Contact-Support",
    gs "Language", gs "Primary-Signing-Key", gs "Secondary-Signing-Key", gs "Encryption-Key",
    gs "Time-To-Live", gs "Expires"]

/-- Required fields of organization entries, from NewOrgEntry. -/
def orgRequiredFields : List GoStr :=
  [ gs "Index", gs "Name", gs "Contact-Admin", gs "Primary-Signing-Key",
    gs "Encryption-Key", gs "Time-To-Live", gs "Expires"]

/-- Concrete organization entry whose previous-hash and hash fields are
populated, as after loading a hashed entry. -/
def sampleOrgEntry : EntryBase :=
  { typeName := gs "Organization"
    Fields := [( gs "Index", gs "1"), ( gs "Name", gs "Acme"), ( gs "Time-To-Live", gs "30")]
    FieldNames := orgFieldNames
    RequiredFields := orgRequiredFields
    Signatures := []
    SignatureInfo := orgSignatureInfo
    PrevHash := gs "BLAKE3-256:prevhash"
    Hash := gs "BLAKE3-256:currenthash" }

/-- Valid Ed25519 signing key whose payload is sixteen full base85 groups,
decoding to sixty-four zero bytes. -/
def signKeyC1 : AlgoString := ⟨ gs "ED25519", List.replicate 80 '0'⟩

/-- C1: the claim says Sign stores the new signature and clears every
signature and hash field at level at least the signed level. Signing the
level-one Custody slot of an entry therefore must clear the level-three
hash slot, and the source's own comment says the hash is cleared; but the
clearing loop only writes empty strings into the Signatures map (under the
key Hashes for the hash slot), so the PrevHash and Hash fields survive
untouched. Evaluated here for every signing primitive: the call succeeds,
the level-two Organization signature entry is cleared, yet both hash
fields still carry their stale values. -/
theorem sign_leaves_hash_fields (ed25519 : List Nat → List Nat → List Nat) :
    (sampleOrgEntry.Sign ed25519 signKeyC1 ( gs "Custody")).2 = none ∧
      mapGet (sampleOrgEntry.Sign ed25519 signKeyC1 ( gs "Custody")).1.Signatures
        ( gs "Organization") = [] ∧
      (sampleOrgEntry.Sign ed25519 signKeyC1 ( gs "Custody")).1.Hash =
        gs "BLAKE3-256:currenthash" ∧
      (sampleOrgEntry.Sign ed25519 signKeyC1 ( gs "Custody")).1.PrevHash =
        gs "BLAKE3-256:prevhash" ∧
      gs "BLAKE3-256:currenthash" ≠ ([] : GoStr) :=
  ⟨ rfl, rfl, rfl, rfl, by decide⟩

/-- C6: the claim says GenerateHash accepts exactly BLAKE3-256, BLAKE2B-256,
SHA-256 and SHA3-256 and writes the digest as an ATB string ALGO:DATA. In
the source BLAKE2B-256 is rejected (the accepted name is BLAKE2), the
accepted name SHA-256 matches no computation case so the entry is returned
unchanged with a nil error, and the taken branches write the algorithm name
without the colon separator. Evaluated here for every digest primitive. -/
theorem generateHash_algorithm_mismatches (f2 fs f3 : List Nat → List Nat) (d3 : List Nat) :
    (sampleOrgEntry.GenerateHash f2 fs f3 d3 ( gs "BLAKE2B-256")).2 =
        some ( gs "unsupported hashing algorithm") ∧
      sampleOrgEntry.GenerateHash f2 fs f3 d3 ( gs "SHA-256") = (sampleOrgEntry, none) ∧
      (sampleOrgEntry.GenerateHash f2 fs f3 d3 ( gs "BLAKE2")).1.Hash =
        gs "BLAKE2" ++ b85Encode (f2 (strBytes (sampleOrgEntry.MakeByteString 3))) :=
  ⟨ rfl, rfl, rfl⟩

/-- Eight-digit date shape demanded by the claimed YYYYMMDD format. -/
def isEightDigitDate (s : GoStr) : Bool := s.length == 8 && s.all Char.isDigit

/-- C7: the claim says SetExpiration stores today plus 365 days for an
organization entry as a YYYYMMDD date. The source formats with the layout
percent-Y percent-m percent-d, which contains no Go reference-layout token,
so the stored value is that literal six-character string for every date,
not an eight-digit date. Evaluated here for every calendar backend. -/
theorem setExpiration_literal_layout (addDate : GoDate → Int → Int → Int → GoDate)
    (now : GoDate) :
    (sampleOrgEntry.SetExpiration addDate now (-1)).2 = none ∧
      mapGet (sampleOrgEntry.SetExpiration addDate now (-1)).1.Fields ( gs "Expiration") =
        gs "%Y%m%d" ∧
      isEightDigitDate ( gs "%Y%m%d") = false :=
  ⟨ rfl, rfl, by decide⟩

/- dbhandler.go: the keycards table and entry retrieval. -/

/-- Row of the keycards table as read by the retrieval queries. -/
structure KeycardRow where
  owner : GoStr
  index : Int
  entry : GoStr
deriving Repr, DecidableEq

/-- Ascending index order used by ORDER BY index. -/
def rowLe (a b : KeycardRow) : Prop := a.index ≤ b.index

/-- Descending index order used by ORDER BY index DESC. -/
def rowGe (a b : KeycardRow) : Prop := b.index ≤ a.index

instance : DecidableRel rowLe := fun a b => Int.decLe a.index b.index

instance : DecidableRel rowGe := fun a b => Int.decLe b.index a.index

instance : IsTotal KeycardRow rowLe := ⟨fun a b => Int.le_total a.index b.index⟩

instance : IsTrans KeycardRow rowLe := ⟨fun _ _ _ h1 h2 => le_trans h1 h2⟩

instance : IsTotal KeycardRow rowGe := ⟨fun a b => Int.le_total b.index a.index⟩

instance : IsTrans KeycardRow rowGe := ⟨fun _ _ _ h1 h2 => le_trans h2 h1⟩

/-- Rows ordered by ascending index; SQL leaves ties unspecified, and a
stable insertion sort realizes one permitted outcome. -/
def orderByIndexAsc (rows : List KeycardRow) : List KeycardRow := List.insertionSort rowLe rows

/-- Rows ordered by descending index. -/
def orderByIndexDesc (rows : List KeycardRow) : List KeycardRow := List.insertionSort rowGe rows

/-- Common body of GetOrgEntries and GetUserEntries from dbhandler.go,
which differ only in the owner key: a start index below one reads the
single row with the highest index (a Scan error when the owner has no
rows); with both bounds at least one the rows between them are returned in
ascending index order, and an inverted range yields the empty list; with
only a start bound every row from it onward is returned ascending. -/
def getEntriesAux (db : List KeycardRow) (owner : GoStr) (startIndex endIndex : Int) :
    List GoStr × Option GoStr :=
  if startIndex < 1 then
    match (orderByIndexDesc (db.filter (fun r => r.owner == owner))).head? with
    | some r => ([r.entry], none)
    | none => ([], some ( gs "sql: no rows in result set"))
  else if 1 ≤ endIndex then
    if endIndex < startIndex then ([], none)
    else
      ((orderByIndexAsc (db.filter (fun r => r.owner == owner &&
        (decide (startIndex ≤ r.index) && decide (r.index ≤ endIndex))))).map
          (fun r => r.entry), none)
  else
    ((orderByIndexAsc (db.filter (fun r => r.owner == owner &&
      decide (startIndex ≤ r.index)))).map (fun r => r.entry), none)

/-- GetOrgEntries from dbhandler.go: entries owned by organization. -/
def GetOrgEntries (db : List KeycardRow) (startIndex endIndex : Int) :
    List GoStr × Option GoStr :=
  getEntriesAux db ( gs "organization") startIndex endIndex

/-- GetUserEntries from dbhandler.go: entries owned by the workspace. -/
def GetUserEntries (db : List KeycardRow) (wid : GoStr) (startIndex endIndex : Int) :
    List GoStr × Option GoStr :=
  getEntriesAux db wid startIndex endIndex

/-- Specification shape of a range query result: the entries of exactly
the rows of the owner whose index satisfies the bound, listed in ascending
index order, with no error. -/
def RangeResult (db : List KeycardRow) (owner : GoStr) (p : Int → Bool)
    (res : List GoStr × Option GoStr) : Prop :=
  ∃ rows : List KeycardRow,
    List.Perm rows (db.filter (fun r => r.owner == owner && p r.index)) ∧
    rows.Pairwise rowLe ∧
    res = (rows.map (fun r => r.entry), none)

theorem getEntriesAux_range (db : List KeycardRow) (owner : GoStr) (s e : Int)
    (hs : 1 ≤ s) (he : 1 ≤ e) (hse : s ≤ e) :
    RangeResult db owner (fun i => decide (s ≤ i) && decide (i ≤ e))
      (getEntriesAux db owner s e) := by
  refine ⟨orderByIndexAsc (db.filter (fun r => r.owner == owner &&
    (decide (s ≤ r.index) && decide (r.index ≤ e)))), ?_, ?_, ?_⟩
  · exact List.perm_insertionSort rowLe _
  · exact List.sorted_insertionSort rowLe _
  · have h1 : ¬ s < 1 := by omega
    have h2 : ¬ e < s := by omega
    simp [getEntriesAux, h1, he, h2]

theorem getEntriesAux_tail (db : List KeycardRow) (owner : GoStr) (s e : Int)
    (hs : 1 ≤ s) (he : e < 1) :
    RangeResult db owner (fun i => decide (s ≤ i)) (getEntriesAux db owner s e) := by
  refine ⟨orderByIndexAsc (db.filter (fun r => r.owner == owner &&
    decide (s ≤ r.index))), ?_, ?_, ?_⟩
  · exact List.perm_insertionSort rowLe _
  · exact List.sorted_insertionSort rowLe _
  · have h1 : ¬ s < 1 := by omega
    have h2 : ¬ 1 ≤ e := by omega
    simp [getEntriesAux, h1, h2]

theorem getEntriesAux_empty_range (db : List KeycardRow) (owner : GoStr) (s e : Int)
    (hs : 1 ≤ s) (he : 1 ≤ e) (hlt : e < s) :
    getEntriesAux db owner s e = ([], none) := by
  have h1 : ¬ s < 1 := by omega
  simp [getEntriesAux, h1, he, hlt]

theorem getEntriesAux_max (db : List KeycardRow) (owner : GoStr) (s e : Int) (hs : s < 1)
    (r0 : KeycardRow) (hr0 : r0 ∈ db) (hr0o : r0.owner = owner) :
    ∃ r, r ∈ db ∧ r.owner = owner ∧
      (∀ q, q ∈ db → q.owner = owner → q.index ≤ r.index) ∧
      getEntriesAux db owner s e = ([r.entry], none) := by
  have hmem : r0 ∈ db.filter (fun r => r.owner == owner) := by
    simp [List.mem_filter, hr0, hr0o]
  have hperm := List.perm_insertionSort rowGe (db.filter (fun r => r.owner == owner))
  cases hsort : orderByIndexDesc (db.filter (fun r => r.owner == owner)) with
  | nil =>
    exfalso
    have hmem2 : r0 ∈ orderByIndexDesc (db.filter (fun r => r.owner == owner)) :=
      hperm.mem_iff.mpr hmem
    rw [hsort] at hmem2
    exact absurd hmem2 (List.not_mem_nil r0)
  | cons r rest =>
    have hsorted : List.Pairwise rowGe (r :: rest) := by
      have hso := List.sorted_insertionSort rowGe (db.filter (fun x => x.owner == owner))
      rw [show List.insertionSort rowGe (db.filter (fun x => x.owner == owner)) = r :: rest
        from hsort] at hso
      exact hso
    have hrmem : r ∈ db.filter (fun x => x.owner == owner) := by
      have : r ∈ orderByIndexDesc (db.filter (fun x => x.owner == owner)) := by
        rw [hsort]; exact List.mem_cons_self r rest
      exact hperm.mem_iff.mp this
    have hrdb : r ∈ db := (List.mem_filter.mp hrmem).1
    have hro : r.owner = owner := by
      have := (List.mem_filter.mp hrmem).2
      exact eq_of_beq this
    refine ⟨r, hrdb, hro, ?_, ?_⟩
    · intro q hq hqo
      have hqf : q ∈ db.filter (fun x => x.owner == owner) := by
        simp [List.mem_filter, hq, hqo]
      have hqs : q ∈ r :: rest := by
        have : q ∈ orderByIndexDesc (db.filter (fun x => x.owner == owner)) :=
          hperm.mem_iff.mpr hqf
        rw [hsort] at this
        exact this
      rcases List.mem_cons.mp hqs with hqr | hqrest
      · exact hqr ▸ le_refl _
      · exact (List.pairwise_cons.mp hsorted).1 q hqrest
    · simp [getEntriesAux, hs, hsort]

/-- C9: for both GetOrgEntries and GetUserEntries, a start index below one
returns exactly the entry of the highest-index row of the owner (stated
for owners that have at least one row); with both bounds at least one the
result is exactly the entries with index between them in ascending index
order, empty when the bounds are inverted; with only the start bound at
least one, every entry from that index onward ascending. -/
theorem get_entries_match_claim (db : List KeycardRow) (wid : GoStr) (s e : Int) :
    (s < 1 → ∀ r0, r0 ∈ db → r0.owner = gs "organization" →
      ∃ r, r ∈ db ∧ r.owner = gs "organization" ∧
        (∀ q, q ∈ db → q.owner = gs "organization" → q.index ≤ r.index) ∧
        GetOrgEntries db s e = ([r.entry], none)) ∧
    (s < 1 → ∀ r0, r0 ∈ db → r0.owner = wid →
      ∃ r, r ∈ db ∧ r.owner = wid ∧ (∀ q, q ∈ db → q.owner = wid → q.index ≤ r.index) ∧
        GetUserEntries db wid s e = ([r.entry], none)) ∧
    (1 ≤ s → 1 ≤ e → e < s →
      GetOrgEntries db s e = ([], none) ∧ GetUserEntries db wid s e = ([], none)) ∧
    (1 ≤ s → 1 ≤ e → s ≤ e →
      RangeResult db ( gs "organization") (fun i => decide (s ≤ i) && decide (i ≤ e))
        (GetOrgEntries db s e) ∧
      RangeResult db wid (fun i => decide (s ≤ i) && decide (i ≤ e))
        (GetUserEntries db wid s e)) ∧
    (1 ≤ s → e < 1 →
      RangeResult db ( gs "organization") (fun i => decide (s ≤ i)) (GetOrgEntries db s e) ∧
      RangeResult db wid (fun i => decide (s ≤ i)) (GetUserEntries db wid s e)) := by
  refine ⟨?_, ?_, ?_, ?_, ?_⟩
  · intro hs r0 hr0 hr0o
    exact getEntriesAux_max db ( gs "organization") s e hs r0 hr0 hr0o
  · intro hs r0 hr0 hr0o
    exact getEntriesAux_max db wid s e hs r0 hr0 hr0o
  · intro hs he hlt
    exact ⟨getEntriesAux_empty_range db ( gs "organization") s e hs he hlt,
      getEntriesAux_empty_range db wid s e hs he hlt⟩
  · intro hs he hse
    exact ⟨getEntriesAux_range db ( gs "organization") s e hs he hse,
      getEntriesAux_range db wid s e hs he hse⟩
  · intro hs he
    exact ⟨getEntriesAux_tail db ( gs "organization") s e hs he,
      getEntriesAux_tail db wid s e hs he⟩

/-- Keycard table for the C9 witness. -/
def keycardsC9 : List KeycardRow :=
  [⟨ gs "organization", 2, gs "orgentry2"⟩,
   ⟨ gs "w1", 1, gs "userentry1"⟩,
   ⟨ gs "organization", 1, gs "orgentry1"⟩]

/-- C9 witness: the in-range case of both retrieval functions on a small
concrete table, with every bound hypothesis discharged. -/
theorem get_entries_match_claim_witness :
    RangeResult keycardsC9 ( gs "organization") (fun i => decide ((1:Int) ≤ i) && decide (i ≤ (2:Int)))
        (GetOrgEntries keycardsC9 1 2) ∧
      RangeResult keycardsC9 ( gs "w1") (fun i => decide ((1:Int) ≤ i) && decide (i ≤ (2:Int)))
        (GetUserEntries keycardsC9 ( gs "w1") 1 2) :=
  (get_entries_match_claim keycardsC9 ( gs "w1") 1 2).2.2.2.1 (by decide) (by decide) (by decide)

/- dbhandler.go: the password hasher. -/

/-- Standard base64 alphabet used by Go base64.RawStdEncoding. -/
def b64Alphabet : GoStr :=
  ( "ABCDEFGHIJKLMNOPQRSTUVWXYZabcdefghijklmnopqrstuvwxyz0123456789+/").data

/-- Digit of the base64 alphabet. -/
def b64c (n : Nat) : Char := b64Alphabet.getD n 'A'

/-- Value of a base64 character; out-of-alphabet characters are errors. -/
def b64v (c : Char) : Option Nat :=
  let i := b64Alphabet.findIdx (fun x => x == c)
  if i < 64 then some i else none

/-- Go base64.RawStdEncoding.EncodeToString: three-byte groups become four
digits, a trailing group of one or two bytes becomes two or three digits,
no padding. -/
def b64Encode : List Nat → GoStr
  | [] => []
  | b0 :: b1 :: b2 :: rest =>
    b64c (b0 / 4) :: b64c (b0 % 4 * 16 + b1 / 16) :: b64c (b1 % 16 * 4 + b2 / 64) ::
      b64c (b2 % 64) :: b64Encode rest
  | [b0] => [b64c (b0 / 4), b64c (b0 % 4 * 16)]
  | [b0, b1] => [b64c (b0 / 4), b64c (b0 % 4 * 16 + b1 / 16), b64c (b1 % 16 * 4)]

/-- Go base64.RawStdEncoding.DecodeString: four-digit groups yield three
bytes, trailing groups of two or three digits yield one or two bytes, a
single trailing digit or an out-of-alphabet character is an error. -/
def b64Decode : GoStr → Option (List Nat)
  | [] => some []
  | c0 :: c1 :: c2 :: c3 :: rest =>
    match b64v c0, b64v c1, b64v c2, b64v c3, b64Decode rest with
    | some v0, some v1, some v2, some v3, some tail =>
      some ((v0 * 4 + v1 / 16) :: (v1 % 16 * 16 + v2 / 4) :: (v2 % 4 * 64 + v3) :: tail)
    | _, _, _, _, _ => none
  | [_] => none
  | [c0, c1] =>
    match b64v c0, b64v c1 with
    | some v0, some v1 => some [v0 * 4 + v1 / 16]
    | _, _ => none
  | [c0, c1, c2] =>
    match b64v c0, b64v c1, b64v c2 with
    | some v0, some v1, some v2 => some [v0 * 4 + v1 / 16, v1 % 16 * 16 + v2 / 4]
    | _, _, _ => none

theorem b64v_b64c (v : Nat) (h : v < 64) : b64v (b64c v) = some v := by
  have hall : ∀ w ∈ List.range 64, b64v (b64c w) = some w := by decide
  exact hall v (List.mem_range.mpr h)

theorem b64c_ne_dollar (v : Nat) : b64c v ≠ '$' := by
  rcases Nat.lt_or_ge v 64 with h | h
  · have hall : ∀ w ∈ List.range 64, b64c w ≠ '$' := by decide
    exact hall v (List.mem_range.mpr h)
  · unfold b64c
    rw [List.getD_eq_default _ _ (by
      have hlen : b64Alphabet.length = 64 := rfl
      omega)]
    decide

theorem b64Encode_no_dollar : ∀ l : List Nat, '$' ∉ b64Encode l
  | [] => by simp [b64Encode]
  | [b0] => by
    intro hm
    rcases List.mem_cons.mp hm with h | h
    · exact b64c_ne_dollar _ h.symm
    · rcases List.mem_cons.mp h with h2 | h2
      · exact b64c_ne_dollar _ h2.symm
      · exact absurd h2 (List.not_mem_nil _)
  | [b0, b1] => by
    intro hm
    rcases List.mem_cons.mp hm with h | h
    · exact b64c_ne_dollar _ h.symm
    · rcases List.mem_cons.mp h with h2 | h2
      · exact b64c_ne_dollar _ h2.symm
      · rcases List.mem_cons.mp h2 with h3 | h3
        · exact b64c_ne_dollar _ h3.symm
        · exact absurd h3 (List.not_mem_nil _)
  | b0 :: b1 :: b2 :: r :: rest => by
    intro hm
    rcases List.mem_cons.mp hm with h | h
    · exact b64c_ne_dollar _ h.symm
    · rcases List.mem_cons.mp h with h2 | h2
      · exact b64c_ne_dollar _ h2.symm
      · rcases List.mem_cons.mp h2 with h3 | h3
        · exact b64c_ne_dollar _ h3.symm
        · rcases List.mem_cons.mp h3 with h4 | h4
          · exact b64c_ne_dollar _ h4.symm
          · exact b64Encode_no_dollar (r :: rest) h4
  | [b0, b1, b2] => by
    intro hm
    rcases List.mem_cons.mp hm with h | h
    · exact b64c_ne_dollar _ h.symm
    · rcases List.mem_cons.mp h with h2 | h2
      · exact b64c_ne_dollar _ h2.symm
      · rcases List.mem_cons.mp h2 with h3 | h3
        · exact b64c_ne_dollar _ h3.symm
        · rcases List.mem_cons.mp h3 with h4 | h4
          · exact b64c_ne_dollar _ h4.symm
          · exact absurd h4 (by simp [b64Encode])

theorem b64_decode_encode : ∀ l : List Nat, (∀ b ∈ l, b < 256) →
    b64Decode (b64Encode l) = some l
  | [], _ => rfl
  | [b0], h => by
    have hb0 : b0 < 256 := h b0 (by simp)
    have h1 : b0 / 4 < 64 := by omega
    have h2 : b0 % 4 * 16 < 64 := by omega
    simp only [b64Encode, b64Decode, b64v_b64c _ h1, b64v_b64c _ h2]
    simp only [Option.some.injEq, List.cons.injEq, and_true]
    omega
  | [b0, b1], h => by
    have hb0 : b0 < 256 := h b0 (by simp)
    have hb1 : b1 < 256 := h b1 (by simp)
    have h1 : b0 / 4 < 64 := by omega
    have h2 : b0 % 4 * 16 + b1 / 16 < 64 := by omega
    have h3 : b1 % 16 * 4 < 64 := by omega
    simp only [b64Encode, b64Decode, b64v_b64c _ h1, b64v_b64c _ h2, b64v_b64c _ h3]
    simp only [Option.some.injEq, List.cons.injEq, and_true]
    constructor
    · omega
    · omega
  | b0 :: b1 :: b2 :: rest, h => by
    have hb0 : b0 < 256 := h b0 (by simp)
    have hb1 : b1 < 256 := h b1 (by simp)
    have hb2 : b2 < 256 := h b2 (by simp)
    have ih := b64_decode_encode rest (fun x hx => h x (by simp [hx]))
    have h1 : b0 / 4 < 64 := by omega
    have h2 : b0 % 4 * 16 + b1 / 16 < 64 := by omega
    have h3 : b1 % 16 * 4 + b2 / 64 < 64 := by omega
    have h4 : b2 % 64 < 64 := by omega
    simp only [b64Encode, b64Decode, b64v_b64c _ h1, b64v_b64c _ h2, b64v_b64c _ h3,
      b64v_b64c _ h4, ih]
    simp only [Option.some.injEq, List.cons.injEq, and_true]
    refine ⟨by omega, by omega, by omega⟩

/-- Decimal run at the front of a string, as consumed by Sscanf %d. -/
def parseDec (s : GoStr) : Option (Nat × GoStr) :=
  let digs := s.takeWhile Char.isDigit
  if digs.isEmpty then none else some (decVal digs, s.dropWhile Char.isDigit)

/-- Sscanf with format v=%d as called by verifyHash. -/
def sscanV : GoStr → Option Nat
  | 'v' :: '=' :: rest => (parseDec rest).map (fun p => p.1)
  | _ => none

/-- Sscanf with format m=%d,t=%d,p=%d as called by verifyHash. -/
def sscanMTP (s : GoStr) : Option (Nat × Nat × Nat) :=
  match s with
  | 'm' :: '=' :: rest =>
    match parseDec rest with
    | none => none
    | some (m, rest1) =>
      match rest1 with
      | ',' :: 't' :: '=' :: rest2 =>
        match parseDec rest2 with
        | none => none
        | some (t, rest3) =>
          match rest3 with
          | ',' :: 'p' :: '=' :: rest4 =>
            match parseDec rest4 with
            | none => none
            | some (p, _) => some (m, t, p)
          | _ => none
      | _ => none
  | _ => none

/-- Go subtle.ConstantTimeCompare: one exactly when the byte slices are
equal (the timing property itself is outside the model). -/
def constantTimeCompare (a b : List Nat) : Nat := if a = b then 1 else 0

/-- Go argon2.Version. -/
def argonVersion : Nat := 19

/-- hashPassword from dbhandler.go. The Argon2id key derivation enters as
the idKey parameter with the argument order of argon2.IDKey: password,
salt, iterations, memory, threads, key length. The salt parameter stands
for the random bytes the source draws (argonSaltLength many); the
round-trip property holds for any byte string there. The enhanced memory
figure 1073741824 is copied from the source. -/
def hashPassword (idKey : List Nat → List Nat → Nat → Nat → Nat → Nat → List Nat)
    (mode : GoStr) (salt : List Nat) (password : GoStr) : GoStr :=
  let enhanced := goToLower mode == gs "enhanced"
  let argonRAM : Nat := if enhanced then 1073741824 else 65536
  let argonIterations : Nat := if enhanced then 10 else 3
  let argonThreads : Nat := if enhanced then 8 else 4
  let argonKeyLength : Nat := if enhanced then 48 else 32
  let passhash := idKey (strBytes password) salt argonIterations argonRAM argonThreads
    argonKeyLength
  gs "$argon2id$v=" ++ natToDec argonVersion ++ gs "$m=" ++ natToDec argonRAM ++
    gs ",t=" ++ natToDec argonIterations ++ gs ",p=" ++ natToDec argonThreads ++
    gs "$" ++ b64Encode salt ++ gs "$" ++ b64Encode passhash

/-- Body of verifyHash once the hash string has been split on the dollar
sign: check the part count, scan the version and the cost triple, decode
salt and stored tag, recompute the tag with the same parameters and the
supplied password, and compare in constant time. -/
def verifyHashParts (idKey : List Nat → List Nat → Nat → Nat → Nat → Nat → List Nat)
    (password : GoStr) (splitValues : List GoStr) : Except GoStr Bool :=
  if splitValues.length ≠ 6 then .error ( gs "Invalid Argon hash string")
  else
    match sscanV (splitValues.getD 2 []) with
    | none => .error ( gs "version scan error")
    | some version =>
      if version ≠ argonVersion then .error ( gs "Unsupported Argon version")
      else
        match sscanMTP (splitValues.getD 3 []) with
        | none => .error ( gs "parameter scan error")
        | some (ramUsage, iterations, parallelism) =>
          match b64Decode (splitValues.getD 4 []) with
          | none => .error ( gs "salt decode error")
          | some salt =>
            match b64Decode (splitValues.getD 5 []) with
            | none => .error ( gs "hash decode error")
            | some savedHash =>
              let passhash := idKey (strBytes password) salt iterations ramUsage parallelism
                savedHash.length
              .ok (constantTimeCompare passhash savedHash == 1)

/-- verifyHash from dbhandler.go: split the stored string on the dollar
delimiter and proceed on the six parts. -/
def verifyHash (idKey : List Nat → List Nat → Nat → Nat → Nat → Nat → List Nat)
    (password : GoStr) (hashPass : GoStr) : Except GoStr Bool :=
  verifyHashParts idKey password (splitOnChar '$' hashPass)

theorem verifyHash_format (idKey : List Nat → List Nat → Nat → Nat → Nat → Nat → List Nat)
    (hlen : ∀ pw s t m p k, (idKey pw s t m p k).length = k)
    (hbyte : ∀ pw s t m p k b, b ∈ idKey pw s t m p k → b < 256)
    (password : GoStr) (salt : List Nat) (hsalt : ∀ b ∈ salt, b < 256)
    (ram iter thr keyLen : Nat) (mtp : GoStr)
    (hscan : sscanMTP mtp = some (ram, iter, thr)) (hdollar : '$' ∉ mtp) :
    verifyHash idKey password
      ( '$' :: ( gs "argon2id" ++ '$' :: ( gs "v=19" ++ '$' :: (mtp ++ '$' ::
        (b64Encode salt ++ '$' ::
          b64Encode (idKey (strBytes password) salt iter ram thr keyLen)))))) = .ok true := by
  have htag : ∀ b ∈ idKey (strBytes password) salt iter ram thr keyLen, b < 256 :=
    fun b hb => hbyte _ _ _ _ _ _ b hb
  have hsplit : splitOnChar '$'
      ( '$' :: ( gs "argon2id" ++ '$' :: ( gs "v=19" ++ '$' :: (mtp ++ '$' ::
        (b64Encode salt ++ '$' ::
          b64Encode (idKey (strBytes password) salt iter ram thr keyLen)))))) =
      [[], gs "argon2id", gs "v=19", mtp, b64Encode salt,
        b64Encode (idKey (strBytes password) salt iter ram thr keyLen)] := by
    rw [splitOnChar_cons_self, splitOnChar_append (by decide), splitOnChar_append (by decide),
      splitOnChar_append hdollar, splitOnChar_append (b64Encode_no_dollar salt),
      splitOnChar_not_mem (b64Encode_no_dollar _)]
  unfold verifyHash
  rw [hsplit]
  unfold verifyHashParts
  rw [if_neg (by simp)]
  simp only [List.getD_cons_succ, List.getD_cons_zero]
  rw [show sscanV ( gs "v=19") = some argonVersion from rfl, hscan,
    b64_decode_encode salt hsalt, b64_decode_encode _ htag]
  simp [constantTimeCompare, hlen (strBytes password) salt iter ram thr keyLen]

/-- C8: verifying a password against the string hashPassword produced for
it succeeds: the hash has the documented dollar-delimited argon2id shape,
verifyHash parses the version, the cost triple, the salt and the tag back
out, recomputes the tag with those parameters and the password, and the
comparison returns true. Stated for every key derivation function whose
output has the requested length and consists of bytes, for both cost
modes, every salt and every password. -/
theorem verify_password_roundtrip
    (idKey : List Nat → List Nat → Nat → Nat → Nat → Nat → List Nat)
    (hlen : ∀ pw s t m p k, (idKey pw s t m p k).length = k)
    (hbyte : ∀ pw s t m p k b, b ∈ idKey pw s t m p k → b < 256)
    (mode : GoStr) (salt : List Nat) (hsalt : ∀ b ∈ salt, b < 256) (password : GoStr) :
    verifyHash idKey password (hashPassword idKey mode salt password) = .ok true := by
  by_cases hm : (goToLower mode == gs "enhanced") = true
  · have hshape : hashPassword idKey mode salt password =
        '$' :: ( gs "argon2id" ++ '$' :: ( gs "v=19" ++ '$' ::
          ( gs "m=1073741824,t=10,p=8" ++ '$' :: (b64Encode salt ++ '$' ::
            b64Encode (idKey (strBytes password) salt 10 1073741824 8 48))))) := by
      simp only [hashPassword, hm, if_true]
      simp only [List.append_assoc]
      rfl
    rw [hshape]
    exact verifyHash_format idKey hlen hbyte password salt hsalt 1073741824 10 8 48
      ( gs "m=1073741824,t=10,p=8") rfl (by decide)
  · have hm2 : (goToLower mode == gs "enhanced") = false := by
      simpa using hm
    have hshape : hashPassword idKey mode salt password =
        '$' :: ( gs "argon2id" ++ '$' :: ( gs "v=19" ++ '$' ::
          ( gs "m=65536,t=3,p=4" ++ '$' :: (b64Encode salt ++ '$' ::
            b64Encode (idKey (strBytes password) salt 3 65536 4 32))))) := by
      simp only [hashPassword, hm2, Bool.false_eq_true, if_false]
      simp only [List.append_assoc]
      rfl
    rw [hshape]
    exact verifyHash_format idKey hlen hbyte password salt hsalt 65536 3 4 32
      ( gs "m=65536,t=3,p=4") rfl (by decide)

/-- Fixed key derivation stub for the C8 witness. -/
def kdfStub (_pw _salt : List Nat) (_t _m _p k : Nat) : List Nat := List.replicate k 7

/-- C8 witness: the round trip evaluated with a concrete key derivation
stub, salt and password in normal mode, with every hypothesis discharged. -/
theorem verify_password_roundtrip_witness :
    verifyHash kdfStub ( gs "correct horse")
      (hashPassword kdfStub ( gs "normal") [ 0, 1, 254, 255] ( gs "correct horse")) =
      Except.ok true :=
  verify_password_roundtrip kdfStub
    (fun _ _ _ _ _ k => List.length_replicate k 7)
    (fun _ _ _ _ _ _ b hb => by
      have hb7 := List.eq_of_mem_replicate hb
      omega)
    ( gs "normal") [ 0, 1, 254, 255] (by decide) ( gs "correct horse")
